import Mathlib

/-!
# Verification of the kraken-api-client streaming order-book core

Shallow embedding of the order-book reconciliation engine
(`orderbookManager.mjs`), the checksum function (`calculateChecksum.mjs`),
the channel registry (`channelManager.mjs`) and the order-book fan-out
manager (`orderbookSubscriptionManager.mjs`), together with theorems
settling the specification claims about them.

Modelling conventions:
* JavaScript numbers carried by the feed (prices, quantities) are modelled
  as exact rationals (`Rat`); the feed delivers exact decimal values.
* `undefined` is modelled with `Option`; a JavaScript value that may be a
  non-array is modelled as `Option (List _)` with `none` for "not an array".
* Throwing an uncaught `TypeError` is modelled with an explicit `crashed`
  flag carried in the step results.
* Side effects (event emissions, `webSocketClient.refresh()` calls, log
  calls) are modelled as explicit outputs of the step functions.
-/

namespace KrakenClient

/-! ## CRC-32 (the `crc-32` npm package, reflected polynomial 0xEDB88320)

`crc32.str` starts from `seed ^ -1 = 0xFFFFFFFF`, folds
`C = (C >>> 8) ^ table[(C ^ byte) & 0xFF]` over the bytes, and returns
`C ^ -1`; the caller applies `>>> 0`.  All the strings checksummed here are
ASCII, so a character's byte is its code point. -/

def crcPoly : Nat := 0xEDB88320

def crcBitStep (c : Nat) : Nat :=
  if c % 2 = 1 then Nat.xor crcPoly (c / 2) else c / 2

def crcTable (n : Nat) : Nat :=
  crcBitStep^[8] n

def crc32Update (c b : Nat) : Nat :=
  Nat.xor (c / 256) (crcTable (Nat.xor c b % 256))

def crc32Str (s : String) : Nat :=
  Nat.xor (s.data.foldl (fun c ch => crc32Update c ch.toNat) 0xFFFFFFFF) 0xFFFFFFFF

/-- Sanity check of the CRC-32 embedding against the standard CRC-32/ISO-HDLC
check value: `crc32("123456789") = 0xCBF43926`. -/
theorem crc32Str_check_value : crc32Str "123456789" = 0xCBF43926 := by decide

/-! ## Decimal formatting

`Number.prototype.toFixed(p)` on the nonnegative exact decimal values the
feed delivers renders the value with exactly `p` digits after the decimal
point (no point when `p = 0`), rounding to nearest.  We model it on `Rat`
by scaling with half-up rounding (`ratScaled q p` is
`⌊q * 10 ^ p + 1 / 2⌋`, computed on raw numerator/denominator so that the
kernel can evaluate it); on inputs whose decimal scale is at most `p` (the
only inputs the feed produces) no rounding occurs at all. -/

def padLeftZeros (s : String) (n : Nat) : String :=
  ⟨List.replicate (n - s.length) '0' ++ s.data⟩

def ratScaled (q : Rat) (p : Nat) : Nat :=
  (Int.ediv (2 * q.num * ((10 ^ p : Nat) : Int) + (q.den : Int)) (2 * (q.den : Int))).toNat

def toFixed (q : Rat) (p : Nat) : String :=
  let n := ratScaled q p
  if p = 0 then toString n
  else toString (n / 10 ^ p) ++ "." ++ padLeftZeros (toString (n % 10 ^ p)) p

/-- `String.prototype.replace('.', '')`: removes the first `'.'`. -/
def removeFirstDot : List Char → List Char
  | [] => []
  | c :: cs => if c = '.' then cs else c :: removeFirstDot cs

/-- `String.prototype.replace(/^0+/, '')`. -/
def stripLeadingZeros (cs : List Char) : List Char :=
  cs.dropWhile (· = '0')

/-! ## Order-book entries -/

structure Entry where
  price : Rat
  qty : Rat
deriving DecidableEq, Repr

/-! ## `calculateChecksum` (src: calculateChecksum.mjs) -/

/-- `convertPair` from `calculateChecksum`. -/
def convertPair (pricePrecision qtyPrecision : Nat) (price qty : Rat) : String :=
  let priceStr := String.mk (stripLeadingZeros (removeFirstDot (toFixed price pricePrecision).data))
  let qtyStr := String.mk (stripLeadingZeros (removeFirstDot (toFixed qty qtyPrecision).data))
  priceStr ++ qtyStr

/-- `list.sort((a, b) => isAsk ? a.price - b.price : b.price - a.price)`:
a stable sort, ascending by price for asks, descending for bids. -/
def sortByPrice (isAsk : Bool) (list : List Entry) : List Entry :=
  list.mergeSort (fun a b => if isAsk then a.price ≤ b.price else b.price ≤ a.price)

/-- `processList` from `calculateChecksum`. -/
def processList (pricePrecision qtyPrecision : Nat) (list : List Entry) (isAsk : Bool) : String :=
  String.join (((sortByPrice isAsk list).take 10).map
    (fun order => convertPair pricePrecision qtyPrecision order.price order.qty))

/-- `calculateChecksum({asks, bids, pricePrecision, qtyPrecision})`.
The final `>>> 0` is the reduction to an unsigned 32-bit integer. -/
def calculateChecksum (asks bids : List Entry) (pricePrecision qtyPrecision : Nat) : Nat :=
  let asksString := processList pricePrecision qtyPrecision asks true
  let bidsString := processList pricePrecision qtyPrecision bids false
  let combinedString := asksString ++ bidsString
  crc32Str combinedString % 2 ^ 32

/-! ### The spec's reference checksum algorithm (worded independently)

"select the best 10 levels per side (ascending price for asks, descending
for bids), format each price with the instrument's price precision as fixed
decimal places with the decimal point removed and leading zeros stripped,
format each quantity the same way with its own precision, concatenate
price+quantity per level, concatenate all ask level strings followed by all
bid level strings, compute CRC-32 over that string, and return it as an
unsigned 32-bit integer." -/

/-- One fixed-decimal field, decimal point removed, leading zeros stripped. -/
def specFormatField (precision : Nat) (x : Rat) : String :=
  String.mk (stripLeadingZeros (removeFirstDot (toFixed x precision).data))

/-- One level's string: formatted price followed by formatted quantity. -/
def specLevelString (pricePrecision qtyPrecision : Nat) (e : Entry) : String :=
  specFormatField pricePrecision e.price ++ specFormatField qtyPrecision e.qty

/-- The best 10 levels of a side: the first ten in the side's sort order. -/
def specBestTen (isAsk : Bool) (side : List Entry) : List Entry :=
  (sortByPrice isAsk side).take 10

/-- The spec's reference checksum algorithm. -/
def specChecksum (asks bids : List Entry) (pricePrecision qtyPrecision : Nat) : Nat :=
  let askLevels := String.join ((specBestTen true asks).map
    (specLevelString pricePrecision qtyPrecision))
  let bidLevels := String.join ((specBestTen false bids).map
    (specLevelString pricePrecision qtyPrecision))
  crc32Str (askLevels ++ bidLevels) % 2 ^ 32

/-- C1: For every order book (asks, bids) and precision pair,
`calculateChecksum` returns the digest defined by the spec's reference
algorithm: best 10 levels per side, fixed-decimal formatting with the point
removed and leading zeros stripped, ask level strings then bid level
strings, CRC-32, reduced to an unsigned 32-bit integer. -/
theorem calculateChecksum_matches_spec (asks bids : List Entry)
    (pricePrecision qtyPrecision : Nat) :
    calculateChecksum asks bids pricePrecision qtyPrecision =
      specChecksum asks bids pricePrecision qtyPrecision := by
  rfl

unseal List.merge List.mergeSort in
/-- A concrete evaluation of the checksum on the synthetic book from the
source's doc comment (price precision 1, qty precision 8), pinning the
formatting pipeline down on an explicit input: each price is rendered with
one decimal and each quantity with eight, points removed, leading zeros
stripped (note the final quantity `0.08572098` becomes `8572098`). -/
theorem calculateChecksum_example :
    calculateChecksum
      [⟨mkRat 347264 10, mkRat 25 100⟩, ⟨mkRat 347277 10, mkRat 21 100⟩]
      [⟨mkRat 347176 10, mkRat 13 100⟩, ⟨mkRat 347141 10, mkRat 8572098 100000000⟩]
      1 8 =
    crc32Str "3472642500000034727721000000347176130000003471418572098" % 2 ^ 32 := by
  decide

/-! ## Order-book sides (src: orderbookManager.mjs) -/

inductive Side where
  | asks
  | bids
deriving DecidableEq, Repr

/-- The `findIndex` predicate of `OrderbookManager.#applyChange`:
`side === 'asks' ? entry.price >= price : entry.price <= price`. -/
def foundPred (side : Side) (price : Rat) (entry : Entry) : Bool :=
  match side with
  | .asks => price ≤ entry.price
  | .bids => entry.price ≤ price

/-- `OrderbookManager.#applyChange({side, price, qty})` restricted to one
side's ladder: find the first index whose entry satisfies `foundPred`; at
an equal price delete (qty 0) or overwrite the quantity, at a later price
splice the new entry in before that index; with no index found push at the
end.  Returns the new ladder and the touched index (`findIndex` never
returns an out-of-range index, so the inner `none` case is unreachable). -/
def applyChange (side : Side) (price qty : Rat) (obSide : List Entry) :
    List Entry × Nat :=
  match obSide.findIdx? (foundPred side price) with
  | some index =>
    match obSide[index]? with
    | some e =>
      if e.price = price then
        if qty = 0 then (obSide.eraseIdx index, index)
        else (obSide.set index { e with qty := qty }, index)
      else (obSide.insertIdx index ⟨price, qty⟩, index)
    | none => (obSide, index)
  | none => (obSide ++ [⟨price, qty⟩], obSide.length)

/-- Recursion-equation form of `applyChange`: `findIndex` followed by
`splice` acts at the first position whose entry satisfies the predicate.
Proved equal to `applyChange` in `applyChange_eq_rec`; the proofs below
use this form. -/
def applyChangeRec (side : Side) (price qty : Rat) : List Entry → List Entry × Nat
  | [] => ([⟨price, qty⟩], 0)
  | e :: rest =>
    if foundPred side price e then
      if e.price = price then
        if qty = 0 then (rest, 0) else ({ e with qty := qty } :: rest, 0)
      else (⟨price, qty⟩ :: e :: rest, 0)
    else
      let (l, i) := applyChangeRec side price qty rest
      (e :: l, i + 1)

theorem applyChange_eq_rec (side : Side) (price qty : Rat) (l : List Entry) :
    applyChange side price qty l = applyChangeRec side price qty l := by
  induction l with
  | nil => rfl
  | cons e rest ih =>
    cases hp : foundPred side price e with
    | true =>
      simp [applyChange, applyChangeRec, List.findIdx?_cons, hp,
        List.eraseIdx_cons_zero, List.set_cons_zero, List.insertIdx_zero]
    | false =>
      simp only [applyChange, applyChangeRec, List.findIdx?_cons, hp,
        Bool.false_eq_true, if_false, List.findIdx?_succ]
      cases hfind : rest.findIdx? (foundPred side price) with
      | none =>
        rw [← ih]
        simp [applyChange, hfind]
      | some i =>
        rw [← ih]
        simp only [applyChange, hfind, Option.map_some, List.getElem?_cons_succ]
        cases hget : rest[i]? with
        | none => simp [hget]
        | some e' =>
          simp only [hget]
          by_cases hpe : e'.price = price
          · by_cases hq : qty = 0
            · simp [hget, hpe, hq, List.eraseIdx_cons_succ]
            · simp [hget, hpe, hq, List.set_cons_succ]
          · simp [hget, hpe, List.insertIdx_succ_cons]

/-! ### Side sort order.

A side is in order when its prices are pairwise strictly ascending (asks)
or strictly descending (bids); this is the sort order `#applyChange`'s
`findIndex` predicate searches against. -/

def priceRel (side : Side) : Rat → Rat → Prop :=
  match side with
  | .asks => (· < ·)
  | .bids => fun a b => b < a

def sortedSide (side : Side) (l : List Entry) : Prop :=
  (l.map Entry.price).Pairwise (priceRel side)

instance priceRelDecidable (side : Side) : DecidableRel (priceRel side) :=
  fun a b =>
    match side with
    | .asks => inferInstanceAs (Decidable (a < b))
    | .bids => inferInstanceAs (Decidable (b < a))

instance sortedSideDecidable (side : Side) (l : List Entry) :
    Decidable (sortedSide side l) :=
  inferInstanceAs (Decidable ((l.map Entry.price).Pairwise (priceRel side)))

theorem priceRel_trans {side : Side} {a b c : Rat}
    (h1 : priceRel side a b) (h2 : priceRel side b c) : priceRel side a c := by
  cases side
  · exact lt_trans h1 h2
  · exact lt_trans h2 h1

theorem priceRel_ne {side : Side} {a b : Rat} (h : priceRel side a b) : a ≠ b := by
  cases side
  · exact ne_of_lt h
  · exact (ne_of_lt h).symm

theorem foundPred_false_iff {side : Side} {price : Rat} {e : Entry} :
    foundPred side price e = false ↔ priceRel side e.price price := by
  cases side <;> simp [foundPred, priceRel]

theorem foundPred_true_of_eq {side : Side} {e : Entry} :
    foundPred side e.price e = true := by
  cases side <;> simp [foundPred]

theorem foundPred_true_ne {side : Side} {price : Rat} {e : Entry}
    (h : foundPred side price e = true) (hne : e.price ≠ price) :
    priceRel side price e.price := by
  cases side
  · exact lt_of_le_of_ne (by simpa [foundPred] using h) (Ne.symm hne)
  · exact lt_of_le_of_ne (by simpa [foundPred] using h) hne

/-- Overwriting only the quantity at a valid index leaves the price list
unchanged. -/
theorem map_price_set (q : Rat) :
    ∀ (l : List Entry) (i : Nat) (e : Entry), l[i]? = some e →
      (l.set i { e with qty := q }).map Entry.price = l.map Entry.price
  | [], i, e, h => by simp at h
  | a :: l, 0, e, h => by
    simp only [List.getElem?_cons_zero, Option.some_inj] at h
    subst h; simp
  | a :: l, i + 1, e, h => by
    simp only [List.getElem?_cons_succ] at h
    simp [List.set_cons_succ, map_price_set q l i e h]

/-- Every price in the result of `applyChangeRec` is either an original
price or the change's price. -/
theorem applyChangeRec_price_mem {side : Side} {price qty : Rat} :
    ∀ {l : List Entry} {x : Rat},
      x ∈ (applyChangeRec side price qty l).1.map Entry.price →
      x ∈ l.map Entry.price ∨ x = price
  | [], x => by
    intro h
    simp [applyChangeRec] at h
    exact Or.inr h
  | e :: rest, x => by
    intro h
    by_cases hp : foundPred side price e = true
    · by_cases hpe : e.price = price
      · by_cases hq : qty = 0
        · simp only [applyChangeRec, hp, hpe, hq, if_true] at h
          exact Or.inl (by simp [h])
        · simp only [applyChangeRec, hp, hpe, hq, if_true, if_false] at h
          simp only [List.map_cons, List.mem_cons] at h ⊢
          tauto
      · simp only [applyChangeRec, hp, hpe, if_true, if_false] at h
        simp only [List.map_cons, List.mem_cons] at h ⊢
        tauto
    · rw [Bool.not_eq_true] at hp
      simp only [applyChangeRec, hp, Bool.false_eq_true, if_false] at h
      simp only [List.map_cons, List.mem_cons] at h ⊢
      rcases h with h | h
      · exact Or.inl (Or.inl h)
      · rcases applyChangeRec_price_mem h with h' | h'
        · exact Or.inl (Or.inr h')
        · exact Or.inr h'

/-- C2 core: one `#applyChange` step keeps a side strictly ordered by its
own sort order. -/
theorem sortedSide_applyChangeRec {side : Side} {price qty : Rat} :
    ∀ {l : List Entry}, sortedSide side l →
      sortedSide side (applyChangeRec side price qty l).1
  | [], _ => by simp [applyChangeRec, sortedSide]
  | e :: rest, hs => by
    have hs' : (rest.map Entry.price).Pairwise (priceRel side) :=
      (List.pairwise_cons.mp hs).2
    have hhead : ∀ x ∈ rest.map Entry.price, priceRel side e.price x :=
      (List.pairwise_cons.mp hs).1
    by_cases hp : foundPred side price e = true
    · by_cases hpe : e.price = price
      · by_cases hq : qty = 0
        · simpa [applyChangeRec, hp, hpe, hq, sortedSide] using hs'
        · simp only [applyChangeRec, hp, if_true, if_pos hpe, if_neg hq]
          simpa [sortedSide] using And.intro hhead hs'
      · simp only [applyChangeRec, hp, hpe, if_true, if_false]
        have hpr : priceRel side price e.price := foundPred_true_ne hp hpe
        refine List.pairwise_cons.mpr ⟨?_, hs⟩
        intro x hx
        simp only [List.map_cons, List.mem_cons] at hx
        rcases hx with rfl | hx
        · exact hpr
        · exact priceRel_trans hpr (hhead x hx)
    · rw [Bool.not_eq_true] at hp
      simp only [applyChangeRec, hp, Bool.false_eq_true, if_false]
      have ih := @sortedSide_applyChangeRec side price qty rest hs'
      refine List.pairwise_cons.mpr ⟨?_, ih⟩
      intro x hx
      rcases applyChangeRec_price_mem hx with h' | h'
      · exact hhead x h'
      · exact h' ▸ foundPred_false_iff.mp hp

/-- C3 core, update/delete branch: on a sorted side holding an entry `e`
with the change's price at index `i`, `#applyChange` deletes `e` exactly
when the quantity is zero and otherwise overwrites its quantity, touching
index `i`. -/
theorem applyChangeRec_found {side : Side} {price qty : Rat} :
    ∀ {l : List Entry} {i : Nat} {e : Entry}, sortedSide side l →
      l[i]? = some e → e.price = price →
      applyChangeRec side price qty l =
        (if qty = 0 then l.eraseIdx i else l.set i { e with qty := qty }, i)
  | [], i, e, _, hi, _ => by simp at hi
  | a :: rest, 0, e, _, hi, hpe => by
    simp only [List.getElem?_cons_zero, Option.some_inj] at hi
    subst hi
    have hf : foundPred side price a = true := hpe ▸ foundPred_true_of_eq
    by_cases hq : qty = 0
    · simp [applyChangeRec, hf, hpe, hq, List.eraseIdx_cons_zero]
    · simp [applyChangeRec, hf, hpe, hq, List.set_cons_zero]
  | a :: rest, i + 1, e, hs, hi, hpe => by
    simp only [List.getElem?_cons_succ] at hi
    have hs' : sortedSide side rest := (List.pairwise_cons.mp hs).2
    have hmem : e.price ∈ rest.map Entry.price := by
      obtain ⟨hlt, hget⟩ := List.getElem?_eq_some_iff.mp hi
      exact hget ▸ List.mem_map_of_mem Entry.price (List.getElem_mem hlt)
    have hrel : priceRel side a.price price :=
      hpe ▸ (List.pairwise_cons.mp hs).1 e.price hmem
    have hf : foundPred side price a = false := foundPred_false_iff.mpr hrel
    have ih := @applyChangeRec_found side price qty rest i e hs' hi hpe
    simp only [applyChangeRec, hf, Bool.false_eq_true, if_false, ih]
    by_cases hq : qty = 0
    · simp [hq, List.eraseIdx_cons_succ]
    · simp [hq, List.set_cons_succ]

/-- C3 core, insert branch: when no entry on the side has the change's
price, `#applyChange` splices a new entry in right where the entries
failing the search predicate end, preserving the sort order; the touched
index is that position. -/
theorem applyChangeRec_not_found {side : Side} {price qty : Rat} :
    ∀ {l : List Entry}, (∀ e ∈ l, e.price ≠ price) →
      applyChangeRec side price qty l =
        (l.takeWhile (fun e => !foundPred side price e) ++
            ⟨price, qty⟩ :: l.dropWhile (fun e => !foundPred side price e),
          (l.takeWhile (fun e => !foundPred side price e)).length)
  | [], _ => by simp [applyChangeRec]
  | a :: rest, hne => by
    have hna : a.price ≠ price := hne a (List.mem_cons_self a rest)
    cases hf : foundPred side price a with
    | true =>
      simp [applyChangeRec, hf, hna, List.takeWhile_cons, List.dropWhile_cons]
    | false =>
      have ih := @applyChangeRec_not_found side price qty rest
        (fun e he => hne e (List.mem_cons_of_mem a he))
      simp [applyChangeRec, hf, ih, List.takeWhile_cons, List.dropWhile_cons]

/-! ## The order book and the update batch (src: orderbookManager.mjs) -/

/-- The book object stored in `this.#orderbook`: the fields of
`data.data[0]` the engine uses. -/
structure Book where
  symbol : String
  asks : List Entry
  bids : List Entry
  checksum : Nat
  timestamp : String
deriving DecidableEq, Repr

def Book.side (b : Book) : Side → List Entry
  | .asks => b.asks
  | .bids => b.bids

def Book.setSide (b : Book) : Side → List Entry → Book
  | .asks, l => { b with asks := l }
  | .bids, l => { b with bids := l }

/-- An incremental `book` update message (`data.data[0]`): each side's
change list is `none` when the field is not an array (`Array.isArray`
fails), which is the malformed-message case. -/
structure UpdateMsg where
  asks : Option (List Entry)
  bids : Option (List Entry)
  checksum : Nat
  timestamp : String
deriving DecidableEq, Repr

/-- The `minModifiedIndex` accumulation in `#applyUpdates`: keep the
smaller of the current minimum and a newly touched index. -/
def updateMin (m : Option Nat) (i : Nat) : Option Nat :=
  match m with
  | none => some i
  | some j => if i < j then some i else some j

/-- One iteration of the `for (const change of obSide)` loop of
`#applyUpdates`: apply the change and fold the touched index into the
shared `minModifiedIndex` accumulator. -/
def applyChangeStep (side : Side) (st : List Entry × Option Nat) (change : Entry) :
    List Entry × Option Nat :=
  let (l, i) := applyChange side change.price change.qty st.1
  (l, updateMin st.2 i)

/-- The inner `for (const change of obSide)` loop of `#applyUpdates`
followed by the truncation of that side to `depth`. -/
def applySideBatch (side : Side) (depth : Nat) (changes : List Entry)
    (book : Book) (minIdx : Option Nat) : Book × Option Nat :=
  let folded := changes.foldl (applyChangeStep side) (book.side side, minIdx)
  (book.setSide side (folded.1.take depth), folded.2)

/-- The outcome of `#applyUpdates`: the (possibly partially) mutated book,
the resulting `minModifiedIndex`, how many times `refresh()` and the log
were called, and whether an uncaught `TypeError` was thrown (`for…of` over
a non-array after the invalid-message log). -/
structure UpdateOutcome where
  book : Book
  minIdx : Option Nat
  refreshes : Nat
  logs : Nat
  crashed : Bool
deriving DecidableEq, Repr

/-- `OrderbookManager.#applyUpdates(data)`: reset `minModifiedIndex`,
process the asks side then the bids side (each: log + `refresh()` and then
crash when the side is not an array, otherwise apply every change and
truncate to `depth`), finally take over the message's checksum and
timestamp.  A crash stops execution at the point of the `for…of` throw,
leaving the mutations made so far in place. -/
def applyUpdates (depth : Nat) (book : Book) (msg : UpdateMsg) : UpdateOutcome :=
  match msg.asks with
  | none => { book := book, minIdx := none, refreshes := 1, logs := 1, crashed := true }
  | some askChanges =>
    let (book1, min1) := applySideBatch .asks depth askChanges book none
    match msg.bids with
    | none => { book := book1, minIdx := min1, refreshes := 1, logs := 1, crashed := true }
    | some bidChanges =>
      let (book2, min2) := applySideBatch .bids depth bidChanges book1 min1
      { book := { book2 with checksum := msg.checksum, timestamp := msg.timestamp },
        minIdx := min2, refreshes := 0, logs := 0, crashed := false }

/-! ## The reconciliation engine state machine (src: orderbookManager.mjs) -/

/-- `{symbol, price_precision, qty_precision}` from the instrument feed. -/
structure Instrument where
  symbol : String
  price_precision : Nat
  qty_precision : Nat
deriving DecidableEq, Repr

/-- The private state of an `OrderbookManager`. -/
structure EngineState where
  symbol : String
  depth : Nat
  isActive : Bool
  orderbook : Option Book
  instrument : Option Instrument
  minModifiedIndex : Option Nat
deriving DecidableEq, Repr

/-- The observable outcome of one message-handler step: the new state, the
`orderbook` events emitted (`none` is the `undefined` "book unavailable"
notification, `some (book, i)` carries the book with `minModifiedIndex`
`i`), the number of `refresh()` calls, the number of log calls, and
whether an uncaught `TypeError` escaped. -/
structure StepResult where
  state : EngineState
  emits : List (Option (Book × Nat))
  refreshes : Nat
  logs : Nat
  crashed : Bool
deriving DecidableEq, Repr

/-- `OrderbookManager.#verifyChecksumAndEmitOrderbook()`. -/
def verifyChecksumAndEmit (st : EngineState) : StepResult :=
  match st.instrument, st.orderbook with
  | some instrument, some ob =>
    if st.isActive then
      let checksum := calculateChecksum ob.asks ob.bids
        instrument.price_precision instrument.qty_precision
      if checksum = ob.checksum then
        match st.minModifiedIndex with
        | some i => ⟨st, [some (ob, i)], 0, 0, false⟩
        | none => ⟨st, [], 0, 0, false⟩
      else
        ⟨{ st with minModifiedIndex := some 0, orderbook := none }, [], 1, 1, false⟩
    else ⟨st, [], 0, 0, false⟩
  | _, _ => ⟨st, [], 0, 0, false⟩

/-- `OrderbookManager.#onOrderbookSnapshot(data)`; `now` is the value of
`new Date().toISOString()`.  Note: no `#isActive` check here. -/
def onOrderbookSnapshot (st : EngineState) (data : Book) (now : String) : StepResult :=
  verifyChecksumAndEmit
    { st with orderbook := some { data with timestamp := now },
              minModifiedIndex := some 0 }

/-- `OrderbookManager.#onOrderbookUpdate(data)`. -/
def onOrderbookUpdate (st : EngineState) (msg : UpdateMsg) : StepResult :=
  match st.orderbook with
  | none => ⟨st, [], 0, 0, false⟩
  | some ob =>
    if st.isActive then
      let o := applyUpdates st.depth ob msg
      let st1 := { st with orderbook := some o.book, minModifiedIndex := o.minIdx }
      if o.crashed then ⟨st1, [], o.refreshes, o.logs, true⟩
      else
        let v := verifyChecksumAndEmit st1
        ⟨v.state, v.emits, o.refreshes + v.refreshes, o.logs + v.logs, false⟩
    else ⟨st, [], 0, 0, false⟩

/-- `OrderbookManager.#updateInstrument(data)` for a snapshot/update
instrument message carrying a `pairs` array (`pairs = none` is the
non-array case, where the whole handler is skipped). -/
def updateInstrument (st : EngineState) (pairs : Option (List Instrument)) : StepResult :=
  match pairs with
  | none => ⟨st, [], 0, 0, false⟩
  | some ps =>
    let instrumentFirstTimeUpdate := st.instrument = none
    let st1 := { st with instrument := ps.find? (fun i => i.symbol = st.symbol) }
    if instrumentFirstTimeUpdate then
      verifyChecksumAndEmit { st1 with minModifiedIndex := some 0 }
    else ⟨st1, [], 0, 0, false⟩

/-- The result of `destroy()`: the state afterwards, the events emitted,
how many channel `unsubscribe` calls were made, and whether the WebSocket
was closed. -/
structure DestroyResult where
  state : EngineState
  emits : List (Option (Book × Nat))
  unsubscribes : Nat
  closed : Bool
deriving DecidableEq, Repr

/-- `OrderbookManager.destroy()`: clear the active flag, emit one final
`undefined` notification, unsubscribe from the book and instrument
channels, close the socket, drop the book. -/
def destroy (st : EngineState) : DestroyResult :=
  ⟨{ st with isActive := false, orderbook := none }, [none], 2, true⟩

/-! ## C2: side invariants survive a whole update batch -/

theorem sortedSide_applyChange {side : Side} {price qty : Rat} {l : List Entry}
    (h : sortedSide side l) : sortedSide side (applyChange side price qty l).1 := by
  rw [applyChange_eq_rec]
  exact sortedSide_applyChangeRec h

theorem sortedSide_foldl_applyChangeStep (side : Side) :
    ∀ (changes : List Entry) (l : List Entry) (m : Option Nat),
      sortedSide side l →
      sortedSide side (changes.foldl (applyChangeStep side) (l, m)).1
  | [], l, m, h => h
  | c :: cs, l, m, h => by
    simp only [List.foldl_cons, applyChangeStep]
    exact sortedSide_foldl_applyChangeStep side cs _ _ (sortedSide_applyChange h)

theorem sortedSide_take (side : Side) (d : Nat) {l : List Entry}
    (h : sortedSide side l) : sortedSide side (l.take d) := by
  rw [sortedSide, List.map_take]
  exact List.Pairwise.sublist (List.take_sublist d _) h

theorem sortedSide_nodup {side : Side} {l : List Entry}
    (h : sortedSide side l) : (l.map Entry.price).Nodup :=
  h.imp priceRel_ne

/-- C2: a valid update batch (both sides are arrays), applied to a book
whose sides follow their sort orders, leaves each side strictly ordered by
price (ascending asks, descending bids), with no two entries on a side
sharing a price, and with each side's length at most the configured
depth. -/
theorem applyUpdates_preserves_invariants (depth : Nat) (book : Book)
    (msg : UpdateMsg) (askChanges bidChanges : List Entry)
    (ha : msg.asks = some askChanges) (hb : msg.bids = some bidChanges)
    (sa : sortedSide .asks book.asks) (sb : sortedSide .bids book.bids) :
    let o := applyUpdates depth book msg
    (sortedSide .asks o.book.asks ∧ sortedSide .bids o.book.bids) ∧
    ((o.book.asks.map Entry.price).Nodup ∧ (o.book.bids.map Entry.price).Nodup) ∧
    (o.book.asks.length ≤ depth ∧ o.book.bids.length ≤ depth) := by
  intro o
  have ho : o = applyUpdates depth book msg := rfl
  rw [applyUpdates, ha, hb] at ho
  simp only [applySideBatch, Book.side, Book.setSide] at ho
  have hasksEq : o.book.asks =
      ((askChanges.foldl (applyChangeStep .asks) (book.asks, none)).1.take depth) := by
    rw [ho]
  have hbidsEq : o.book.bids =
      ((bidChanges.foldl (applyChangeStep .bids)
        (book.bids,
          (askChanges.foldl (applyChangeStep .asks) (book.asks, none)).2)).1.take depth) := by
    rw [ho]
  have hsa : sortedSide .asks o.book.asks := by
    rw [hasksEq]
    exact sortedSide_take _ _ (sortedSide_foldl_applyChangeStep _ _ _ _ sa)
  have hsb : sortedSide .bids o.book.bids := by
    rw [hbidsEq]
    exact sortedSide_take _ _ (sortedSide_foldl_applyChangeStep _ _ _ _ sb)
  refine ⟨⟨hsa, hsb⟩, ⟨sortedSide_nodup hsa, sortedSide_nodup hsb⟩, ?_, ?_⟩
  · rw [hasksEq]; exact List.length_take_le depth _
  · rw [hbidsEq]; exact List.length_take_le depth _

/-- Witness for C2 at a concrete book and batch: a two-level book on each
side, an insertion, a deletion and an overwrite, depth 2. -/
theorem applyUpdates_preserves_invariants_witness :
    sortedSide .asks ([⟨2, 1⟩, ⟨4, 1⟩] : List Entry) ∧
    sortedSide .bids ([⟨1, 7⟩, ⟨mkRat 1 2, 3⟩] : List Entry) ∧
    (let o := applyUpdates 2
      { symbol := "BTC/USD", asks := [⟨2, 1⟩, ⟨4, 1⟩],
        bids := [⟨1, 7⟩, ⟨mkRat 1 2, 3⟩], checksum := 0, timestamp := "t0" }
      { asks := some [⟨3, 5⟩, ⟨2, 0⟩], bids := some [⟨1, 7⟩],
        checksum := 9, timestamp := "t1" }
     (sortedSide .asks o.book.asks ∧ sortedSide .bids o.book.bids) ∧
     ((o.book.asks.map Entry.price).Nodup ∧ (o.book.bids.map Entry.price).Nodup) ∧
     (o.book.asks.length ≤ 2 ∧ o.book.bids.length ≤ 2)) :=
  ⟨by decide, by decide,
    applyUpdates_preserves_invariants 2
      { symbol := "BTC/USD", asks := [⟨2, 1⟩, ⟨4, 1⟩],
        bids := [⟨1, 7⟩, ⟨mkRat 1 2, 3⟩], checksum := 0, timestamp := "t0" }
      { asks := some [⟨3, 5⟩, ⟨2, 0⟩], bids := some [⟨1, 7⟩],
        checksum := 9, timestamp := "t1" }
      [⟨3, 5⟩, ⟨2, 0⟩] [⟨1, 7⟩] rfl rfl (by decide) (by decide)⟩

/-! ## C3: the exact semantics of one change and of a batch -/

/-- Specification helper: the ladder produced by a change batch together
with the list of indices the batch touched, in order. -/
def applyAllChanges (side : Side) : List Entry → List Entry → List Entry × List Nat
  | [], l => (l, [])
  | c :: cs, l =>
    let (l1, i) := applyChange side c.price c.qty l
    let (l2, is) := applyAllChanges side cs l1
    (l2, i :: is)

theorem updateMin_some (j i : Nat) : updateMin (some j) i = some (min j i) := by
  rw [updateMin, Nat.min_def]
  split_ifs <;> first | rfl | omega

theorem foldl_updateMin_some (xs : List Nat) :
    ∀ (j : Nat), xs.foldl updateMin (some j) = some (xs.foldl min j) := by
  induction xs with
  | nil => intro j; rfl
  | cons x xs ih => intro j; rw [List.foldl_cons, updateMin_some, ih, List.foldl_cons]

/-- Folding `updateMin` from `undefined` computes the minimum of the
touched indices (or `undefined` when there were none). -/
theorem foldl_updateMin_none (xs : List Nat) :
    xs.foldl updateMin none = xs.min? := by
  cases xs with
  | nil => rfl
  | cons x xs => rw [List.foldl_cons]; exact foldl_updateMin_some xs x

/-- The source's fused loop equals the specification helper: same ladder,
and the accumulator folds `updateMin` over the touched indices. -/
theorem foldl_applyChangeStep_eq (side : Side) :
    ∀ (cs : List Entry) (l : List Entry) (m : Option Nat),
      cs.foldl (applyChangeStep side) (l, m) =
        ((applyAllChanges side cs l).1,
          (applyAllChanges side cs l).2.foldl updateMin m)
  | [], l, m => rfl
  | c :: cs, l, m => by
    simp only [List.foldl_cons, applyChangeStep, applyAllChanges,
      foldl_applyChangeStep_eq side cs]

theorem setSide_asks_bids (b : Book) (l : List Entry) :
    ((b.setSide .asks l).bids = b.bids) ∧ ((b.setSide .bids l).asks = b.asks) := by
  constructor <;> rfl

/-- C3: the exact effect of incremental changes.
1. On a sorted side holding an entry `e` of the change's price at index
   `i`, the change deletes `e` exactly when `qty = 0`, otherwise
   overwrites its quantity; the touched index is `i`.
2. When no entry has the change's price, a new entry is spliced in at the
   position determined by the side's sort order (right after the entries
   strictly before it), and that position is the touched index.
3. For a whole batch, each side is truncated to the configured depth after
   all changes are applied.
4. The reported dirty index (`minModifiedIndex`) is the minimum index
   touched across the asks batch and the bids batch (`undefined` when the
   batch contains no changes).
5. A batch with no changes leaves `minModifiedIndex` undefined and the
   handler emits no `orderbook` event at all. -/
theorem applyChange_batch_semantics :
    (∀ (side : Side) (l : List Entry) (i : Nat) (e : Entry) (price qty : Rat),
      sortedSide side l → l[i]? = some e → e.price = price →
      applyChange side price qty l =
        (if qty = 0 then l.eraseIdx i else l.set i { e with qty := qty }, i)) ∧
    (∀ (side : Side) (l : List Entry) (price qty : Rat),
      (∀ e ∈ l, e.price ≠ price) →
      applyChange side price qty l =
        (l.takeWhile (fun e => !foundPred side price e) ++
            ⟨price, qty⟩ :: l.dropWhile (fun e => !foundPred side price e),
          (l.takeWhile (fun e => !foundPred side price e)).length)) ∧
    (∀ (depth : Nat) (book : Book) (msg : UpdateMsg) (ca cb : List Entry),
      msg.asks = some ca → msg.bids = some cb →
      (applyUpdates depth book msg).book.asks =
          ((applyAllChanges .asks ca book.asks).1).take depth ∧
      (applyUpdates depth book msg).book.bids =
          ((applyAllChanges .bids cb book.bids).1).take depth) ∧
    (∀ (depth : Nat) (book : Book) (msg : UpdateMsg) (ca cb : List Entry),
      msg.asks = some ca → msg.bids = some cb →
      (applyUpdates depth book msg).minIdx =
        ((applyAllChanges .asks ca book.asks).2 ++
          (applyAllChanges .bids cb book.bids).2).min?) ∧
    (∀ (st : EngineState) (msg : UpdateMsg),
      msg.asks = some [] → msg.bids = some [] →
      (onOrderbookUpdate st msg).emits = []) := by
  refine ⟨?_, ?_, ?_, ?_, ?_⟩
  · intro side l i e price qty hs hi hpe
    rw [applyChange_eq_rec]
    exact applyChangeRec_found hs hi hpe
  · intro side l price qty hne
    rw [applyChange_eq_rec]
    exact applyChangeRec_not_found hne
  · intro depth book msg ca cb ha hb
    simp only [applyUpdates, ha, hb, applySideBatch, foldl_applyChangeStep_eq,
      Book.side, Book.setSide]
    exact ⟨trivial, trivial⟩
  · intro depth book msg ca cb ha hb
    simp only [applyUpdates, ha, hb, applySideBatch, foldl_applyChangeStep_eq,
      Book.side, Book.setSide]
    rw [← List.foldl_append, foldl_updateMin_none]
  · intro st msg ha hb
    rw [onOrderbookUpdate]
    cases st.orderbook with
    | none => rfl
    | some ob =>
      by_cases hact : st.isActive
      · simp only [hact, if_true]
        have hmin : (applyUpdates st.depth ob msg).minIdx = none := by
          rw [applyUpdates, ha, hb]
          simp [applySideBatch, applyAllChanges, Book.side]
        have hcrash : (applyUpdates st.depth ob msg).crashed = false := by
          rw [applyUpdates, ha, hb]
        simp only [hcrash, Bool.false_eq_true, if_false]
        rw [verifyChecksumAndEmit]
        cases hinst : st.instrument with
        | none => rfl
        | some instrument =>
          simp only [hact, if_true, hmin]
          split_ifs <;> rfl
      · simp [hact]

/-- Witness for C3 at the spec's scenario: setting qty 0 on bid price 100
which sits at index 3 of a sorted bid ladder removes it, and the batch's
dirty index is 3. -/
theorem applyChange_batch_semantics_witness :
    sortedSide .bids [⟨103, 1⟩, ⟨102, 1⟩, ⟨101, 1⟩, ⟨100, 5⟩] ∧
    applyChange .bids 100 0 [⟨103, 1⟩, ⟨102, 1⟩, ⟨101, 1⟩, ⟨100, 5⟩] =
      ([⟨103, 1⟩, ⟨102, 1⟩, ⟨101, 1⟩], 3) ∧
    (applyUpdates 10
      { symbol := "BTC/USD", asks := [],
        bids := [⟨103, 1⟩, ⟨102, 1⟩, ⟨101, 1⟩, ⟨100, 5⟩],
        checksum := 0, timestamp := "t0" }
      { asks := some [], bids := some [⟨100, 0⟩],
        checksum := 7, timestamp := "t1" }).minIdx = some 3 := by
  refine ⟨by decide, ?_, ?_⟩
  · rw [applyChange_batch_semantics.1 .bids
      [⟨103, 1⟩, ⟨102, 1⟩, ⟨101, 1⟩, ⟨100, 5⟩] 3 ⟨100, 5⟩ 100 0
      (by decide) (by decide) rfl]
    decide
  · rw [applyChange_batch_semantics.2.2.2.1 10
      { symbol := "BTC/USD", asks := [],
        bids := [⟨103, 1⟩, ⟨102, 1⟩, ⟨101, 1⟩, ⟨100, 5⟩],
        checksum := 0, timestamp := "t0" }
      { asks := some [], bids := some [⟨100, 0⟩],
        checksum := 7, timestamp := "t1" }
      [] [⟨100, 0⟩] rfl rfl]
    decide

/-! ## C4: protocol integrity faults -/

/-- C4, evaluated at the failing input: an update message whose `asks`
field is not an array.  `#applyUpdates` logs the invalid message and calls
`refresh()`, but then still runs `for (const change of obSide)` over the
non-array, throwing an uncaught `TypeError`: the handler crashes, the
stored book is *not* discarded, and the dirty index is *not* marked 0 —
contradicting the claim that such faults discard the book (dirty index 0)
and are never fatal. -/
theorem malformed_update_crashes_without_discard :
    (onOrderbookUpdate
      ⟨"BTC/USD", 10, true,
        some ⟨"BTC/USD", [⟨2, 1⟩], [⟨1, 1⟩], 5, "t0"⟩,
        some ⟨"BTC/USD", 1, 8⟩, some 0⟩
      ⟨none, some [], 6, "t1"⟩) =
    ⟨⟨"BTC/USD", 10, true,
        some ⟨"BTC/USD", [⟨2, 1⟩], [⟨1, 1⟩], 5, "t0"⟩,
        some ⟨"BTC/USD", 1, 8⟩, none⟩,
      [], 1, 1, true⟩ := by
  decide

/-! ## C9: destroy and in-flight messages -/

/-- C9 counterexample: `#onOrderbookSnapshot` performs no `#isActive`
check, so a snapshot arriving after `destroy()` silently repopulates the
internal book state (the claim says no message repopulates book state
after destroy).  No event is emitted, but `state.orderbook` goes from
`none` back to a live book. -/
theorem snapshot_after_destroy_repopulates :
    (onOrderbookSnapshot
      (destroy ⟨"BTC/USD", 10, true,
        some ⟨"BTC/USD", [⟨2, 1⟩], [⟨1, 1⟩], 5, "t0"⟩, none, none⟩).state
      ⟨"BTC/USD", [⟨3, 1⟩], [⟨1, 2⟩], 8, "tfeed"⟩
      "t2").state.orderbook =
      some ⟨"BTC/USD", [⟨3, 1⟩], [⟨1, 2⟩], 8, "t2"⟩ ∧
    (destroy ⟨"BTC/USD", 10, true,
        some ⟨"BTC/USD", [⟨2, 1⟩], [⟨1, 1⟩], 5, "t0"⟩,
        none, none⟩).state.isActive = false := by
  decide

/-- C9 as amended: `destroy()` immediately marks the engine inactive,
emits exactly one final `undefined` notification, unsubscribes from both
channels and closes the socket, and drops the book; afterwards no message
of any kind ever emits an `orderbook` event — update messages are ignored
outright — but a late snapshot still overwrites the internal book state
and instrument messages still update instrument metadata, both silently
(the inactive flag only suppresses verification and emission). -/
theorem destroy_semantics (st : EngineState) :
    ((destroy st).state.isActive = false ∧ (destroy st).state.orderbook = none) ∧
    ((destroy st).emits = [none]) ∧
    ((destroy st).unsubscribes = 2 ∧ (destroy st).closed = true) ∧
    (∀ msg : UpdateMsg,
      onOrderbookUpdate (destroy st).state msg =
        ⟨(destroy st).state, [], 0, 0, false⟩) ∧
    (∀ (data : Book) (now : String),
      (onOrderbookSnapshot (destroy st).state data now).emits = [] ∧
      (onOrderbookSnapshot (destroy st).state data now).state.orderbook =
        some { data with timestamp := now }) ∧
    (∀ pairs : Option (List Instrument),
      (updateInstrument (destroy st).state pairs).emits = []) := by
  refine ⟨⟨rfl, rfl⟩, rfl, ⟨rfl, rfl⟩, fun msg => rfl, ?_, ?_⟩
  · intro data now
    rw [onOrderbookSnapshot, verifyChecksumAndEmit]
    cases hinst : (destroy st).state.instrument with
    | none => exact ⟨rfl, rfl⟩
    | some instrument => simp [destroy]
  · intro pairs
    cases pairs with
    | none => rfl
    | some ps =>
      rw [updateInstrument]
      by_cases hfirst : (destroy st).state.instrument = none
      · simp only [hfirst, if_true, verifyChecksumAndEmit]
        simp [destroy]
      · simp [hfirst]

/-! ## Fan-out manager (src: orderbookSubscriptionManager.mjs) -/

/-- JavaScript `<` between a possibly-`undefined` dirty index and a
possibly-`undefined` depth: any comparison involving `undefined` is
`false` (`undefined` converts to `NaN`). -/
def jsLt : Option Nat → Option Nat → Bool
  | some a, some b => a < b
  | _, _ => false

/-- `Array.prototype.slice(0, depth)`: the whole array when `depth` is
`undefined`. -/
def jsSlice (l : List Entry) : Option Nat → List Entry
  | none => l
  | some d => l.take d

/-- The consolidated event re-emitted by `#onOrderbook`. -/
structure FanoutEvent where
  asks : List Entry
  bids : List Entry
  symbol : String
  timestamp : String
deriving DecidableEq, Repr

/-- `OrderbookSubscriptionManager.#onOrderbook(data, {minModifiedIndex})`:
`none` when nothing is emitted, `some none` when the `undefined`
notification is passed through, `some (some ev)` when a consolidated
event (both sides sliced to the stored depth, plus symbol and timestamp)
is emitted. -/
def fanOnOrderbook (depth : Option Nat) (data : Option Book)
    (minModifiedIndex : Option Nat) : Option (Option FanoutEvent) :=
  match data with
  | none => some none
  | some b =>
    if jsLt minModifiedIndex depth then
      some (some ⟨jsSlice b.asks depth, jsSlice b.bids depth, b.symbol, b.timestamp⟩)
    else none

/-- C7: with a defined book and a defined requested depth, `#onOrderbook`
re-emits a consolidated event (both sides sliced to the depth, plus symbol
and timestamp) exactly when the batch's dirty index is strictly below the
depth; a dirty index at or beyond the depth produces no event. -/
theorem fanout_emits_iff_dirty_lt_depth (depth m : Nat) (b : Book) :
    (m < depth →
      fanOnOrderbook (some depth) (some b) (some m) =
        some (some ⟨b.asks.take depth, b.bids.take depth, b.symbol, b.timestamp⟩)) ∧
    (depth ≤ m →
      fanOnOrderbook (some depth) (some b) (some m) = none) := by
  constructor
  · intro h
    rw [fanOnOrderbook]
    simp [jsLt, jsSlice, h]
  · intro h
    rw [fanOnOrderbook]
    simp [jsLt, jsSlice, Nat.not_lt.mpr h]

/-- Witness for C7 at depth 2: dirty index 1 emits the sliced book, dirty
index 3 is suppressed. -/
theorem fanout_emits_iff_dirty_lt_depth_witness :
    ((1 : Nat) < 2 ∧
      fanOnOrderbook (some 2) (some ⟨"ETH/USD", [⟨1, 1⟩, ⟨2, 1⟩, ⟨3, 1⟩], [], 0, "t"⟩)
        (some 1) =
        some (some ⟨[⟨1, 1⟩, ⟨2, 1⟩], [], "ETH/USD", "t"⟩)) ∧
    ((2 : Nat) ≤ 3 ∧
      fanOnOrderbook (some 2) (some ⟨"ETH/USD", [⟨1, 1⟩, ⟨2, 1⟩, ⟨3, 1⟩], [], 0, "t"⟩)
        (some 3) = none) :=
  ⟨⟨by decide,
    by
      rw [(fanout_emits_iff_dirty_lt_depth 2 1
        ⟨"ETH/USD", [⟨1, 1⟩, ⟨2, 1⟩, ⟨3, 1⟩], [], 0, "t"⟩).1 (by decide)]
      decide⟩,
   ⟨by decide,
    (fanout_emits_iff_dirty_lt_depth 2 3
      ⟨"ETH/USD", [⟨1, 1⟩, ⟨2, 1⟩, ⟨3, 1⟩], [], 0, "t"⟩).2 (by decide)⟩⟩

/-- C10: when `subscribe` stored no depth (`depth` omitted, hence
`undefined`), the emission condition `minModifiedIndex < undefined` is
always `false`, so no event carrying a defined book is ever re-emitted,
whatever the dirty index; only the `undefined` (book unavailable)
notification passes through. -/
theorem fanout_depth_undefined_suppresses (b : Book) (m : Option Nat) :
    fanOnOrderbook none (some b) m = none ∧
    fanOnOrderbook none none m = some none := by
  constructor
  · rw [fanOnOrderbook]
    cases m <;> rfl
  · rfl

/-! ## Channel registry (src: channelManager.mjs)

A Subscription Key is `JSON.stringify` of the subscribe params minus
`token` and `symbol`.  The `snapshot` property is modelled as its own
field because `unsubscribe` compares keys with `snapshot` deleted; `core`
stands for the canonical serialization of every other property — an
arbitrary type with decidable equality.  `#subscriptionKeys` is an
insertion-ordered map from key to symbol `Set` (JavaScript objects and
`Set`s preserve insertion order), modelled as an association list whose
symbol lists are insertion-ordered and duplicate-free by construction. -/

structure SubKey (C : Type) where
  snapshot : Option Bool
  core : C
deriving DecidableEq, Repr

abbrev Registry (C : Type) := List (SubKey C × List String)

/-- `Set.prototype.add`. -/
def addSym (l : List String) (s : String) : List String :=
  if s ∈ l then l else l ++ [s]

/-- `symbolArray.forEach(symbol => set.add(symbol))`. -/
def addSyms (l : List String) (syms : List String) : List String :=
  syms.foldl addSym l

/-- The registry mutation of `ChannelManager.subscribe`:
`#subscriptionKeys[key] ??= new Set()` followed by adding every symbol of
the call. -/
def subscribeStep [DecidableEq C] (st : Registry C) (k : SubKey C)
    (symbolArray : List String) : Registry C :=
  if st.any (fun e => e.1 = k) then
    st.map (fun e => if e.1 = k then (e.1, addSyms e.2 symbolArray) else e)
  else st ++ [(k, addSyms [] symbolArray)]

/-- The registry mutation of `ChannelManager.unsubscribe`: for every
registered key equal to the call's key once both have `snapshot` deleted,
remove the call's symbols from the entry's set and delete the entry if
the set is now empty. -/
def unsubscribeStep [DecidableEq C] (st : Registry C) (k : SubKey C)
    (symbolArray : List String) : Registry C :=
  st.filterMap (fun e =>
    if e.1.core = k.core then
      if e.2.filter (fun s => ¬ s ∈ symbolArray) = [] then none
      else some (e.1, e.2.filter (fun s => ¬ s ∈ symbolArray))
    else some e)

inductive ChannelOp (C : Type) where
  | subscribeOp (k : SubKey C) (symbolArray : List String)
  | unsubscribeOp (k : SubKey C) (symbolArray : List String)

def applyChannelOp [DecidableEq C] (st : Registry C) : ChannelOp C → Registry C
  | .subscribeOp k syms => subscribeStep st k syms
  | .unsubscribeOp k syms => unsubscribeStep st k syms

/-- The registry state after a whole history of subscribe/unsubscribe
calls, starting from the initial empty `#subscriptionKeys`. -/
def applyChannelOps [DecidableEq C] (ops : List (ChannelOp C)) : Registry C :=
  ops.foldl applyChannelOp []

/-- One `subscribe` message assembled by `sendSubscribeToResubscribe`:
the parsed key's params, with `symbol` set to the entry's current symbols
when the set is non-empty. -/
structure ResubMsg (C : Type) where
  key : SubKey C
  symbol : Option (List String)
deriving DecidableEq, Repr

def mkResubMsg {C : Type} (e : SubKey C × List String) : ResubMsg C :=
  ⟨e.1, if e.2.isEmpty then none else some e.2⟩

/-- `ChannelManager.sendSubscribeToResubscribe`: push one subscribe
message per registry entry onto `subscriptions`, then send each (the
socket is open when the `reconnected`/`open` handler runs, so every
message is sent). -/
def sendSubscribeToResubscribe {C : Type} (st : Registry C) : List (ResubMsg C) :=
  st.foldl (fun subscriptions e => subscriptions ++ [mkResubMsg e]) []

theorem foldl_push_eq_map {C : Type} (st : Registry C) :
    ∀ acc : List (ResubMsg C),
      st.foldl (fun subscriptions e => subscriptions ++ [mkResubMsg e]) acc =
        acc ++ st.map mkResubMsg := by
  induction st with
  | nil => intro acc; simp
  | cons e st ih => intro acc; simp [ih]

theorem sendSubscribeToResubscribe_eq_map {C : Type} (st : Registry C) :
    sendSubscribeToResubscribe st = st.map mkResubMsg := by
  rw [sendSubscribeToResubscribe, foldl_push_eq_map]
  simp

/-- Membership in the state after an `unsubscribe`: an entry survives with
its symbols filtered exactly when it matches the call's key (modulo
`snapshot`) and keeps at least one symbol, and survives untouched when it
does not match. -/
theorem mem_unsubscribeStep [DecidableEq C] (st : Registry C) (k k' : SubKey C)
    (symbolArray set' : List String) :
    (k', set') ∈ unsubscribeStep st k symbolArray ↔
      ∃ set, (k', set) ∈ st ∧
        ((k'.core = k.core ∧ set' = set.filter (fun s => ¬ s ∈ symbolArray) ∧
            set' ≠ []) ∨
         (k'.core ≠ k.core ∧ set' = set)) := by
  rw [unsubscribeStep, List.mem_filterMap]
  constructor
  · rintro ⟨⟨ka, seta⟩, hmem, hf⟩
    by_cases hc : ka.core = k.core
    · rw [if_pos hc] at hf
      split at hf
      · exact Option.noConfusion hf
      · rename_i hrem
        rw [Option.some_inj] at hf
        injection hf with hk hs
        subst hk
        exact ⟨seta, hmem, Or.inl ⟨hc, hs.symm, hs ▸ hrem⟩⟩
    · rw [if_neg hc, Option.some_inj] at hf
      injection hf with hk hs
      subst hk
      exact ⟨seta, hmem, Or.inr ⟨hc, hs.symm⟩⟩
  · rintro ⟨set, hmem, hcase⟩
    rcases hcase with ⟨hc, hs, hne⟩ | ⟨hc, hs⟩
    · have hne' : set.filter (fun s => ¬ s ∈ symbolArray) ≠ [] := hs ▸ hne
      refine ⟨(k', set), hmem, ?_⟩
      rw [if_pos hc, if_neg hne', Option.some_inj, hs]
    · refine ⟨(k', set), hmem, ?_⟩
      rw [if_neg hc, Option.some_inj, hs]

/-- C5: whatever history of subscribe/unsubscribe calls preceded it, the
reconnect replay sends exactly one subscribe message per live Subscription
Entry, each carrying that entry's current symbol set — a function of the
desired state, not of the call history; and a symbol removed by an
unsubscribe before the reconnect appears in no replayed message for that
key. -/
theorem resubscribe_replays_desired_state {C : Type} [DecidableEq C]
    (ops : List (ChannelOp C)) (k : SubKey C) (syms : List String) (s : String)
    (hs : s ∈ syms) :
    sendSubscribeToResubscribe (applyChannelOps (ops ++ [.unsubscribeOp k syms])) =
      (applyChannelOps (ops ++ [.unsubscribeOp k syms])).map mkResubMsg ∧
    (sendSubscribeToResubscribe
        (applyChannelOps (ops ++ [.unsubscribeOp k syms]))).length =
      (applyChannelOps (ops ++ [.unsubscribeOp k syms])).length ∧
    (∀ m ∈ sendSubscribeToResubscribe
        (applyChannelOps (ops ++ [.unsubscribeOp k syms])),
      m.key.core = k.core → s ∉ m.symbol.getD []) := by
  refine ⟨sendSubscribeToResubscribe_eq_map _, ?_, ?_⟩
  · rw [sendSubscribeToResubscribe_eq_map, List.length_map]
  · intro m hm hcore
    rw [sendSubscribeToResubscribe_eq_map, List.mem_map] at hm
    obtain ⟨⟨e1, e2⟩, he, hme⟩ := hm
    subst hme
    simp only [mkResubMsg] at hcore
    have hlast : applyChannelOps (ops ++ [ChannelOp.unsubscribeOp k syms]) =
        unsubscribeStep (applyChannelOps ops) k syms := by
      rw [applyChannelOps, List.foldl_append]
      rfl
    rw [hlast, mem_unsubscribeStep] at he
    obtain ⟨set, hmem, hcase⟩ := he
    rcases hcase with ⟨hc, hset, hne⟩ | ⟨hc, hset⟩
    · have hnotin : s ∉ e2 := by
        rw [hset]
        intro hmem2
        rw [List.mem_filter] at hmem2
        have hns : ¬ s ∈ syms := by simpa using hmem2.2
        exact hns hs
      by_cases hemp : e2.isEmpty
      · simp [mkResubMsg, hemp]
      · simp [mkResubMsg, hemp, hnotin]
    · exact absurd hcore hc

/-- Witness for C5: history = one subscribe for key `⟨none, 0⟩` of symbols
ETH/USD and BTC/USD followed by an unsubscribe of BTC/USD; the replay is
one message per entry, and BTC/USD appears in no replayed message. -/
theorem resubscribe_replays_desired_state_witness :
    ("BTC/USD" ∈ ["BTC/USD"]) ∧
    (sendSubscribeToResubscribe (applyChannelOps
        ([ChannelOp.subscribeOp (⟨none, 0⟩ : SubKey Nat) ["ETH/USD", "BTC/USD"]] ++
          [.unsubscribeOp ⟨none, 0⟩ ["BTC/USD"]])) =
      (applyChannelOps
        ([ChannelOp.subscribeOp (⟨none, 0⟩ : SubKey Nat) ["ETH/USD", "BTC/USD"]] ++
          [.unsubscribeOp ⟨none, 0⟩ ["BTC/USD"]])).map mkResubMsg ∧
    (sendSubscribeToResubscribe (applyChannelOps
        ([ChannelOp.subscribeOp (⟨none, 0⟩ : SubKey Nat) ["ETH/USD", "BTC/USD"]] ++
          [.unsubscribeOp ⟨none, 0⟩ ["BTC/USD"]]))).length =
      (applyChannelOps
        ([ChannelOp.subscribeOp (⟨none, 0⟩ : SubKey Nat) ["ETH/USD", "BTC/USD"]] ++
          [.unsubscribeOp ⟨none, 0⟩ ["BTC/USD"]])).length ∧
    (∀ m ∈ sendSubscribeToResubscribe (applyChannelOps
        ([ChannelOp.subscribeOp (⟨none, 0⟩ : SubKey Nat) ["ETH/USD", "BTC/USD"]] ++
          [.unsubscribeOp ⟨none, 0⟩ ["BTC/USD"]])),
      m.key.core = (⟨none, 0⟩ : SubKey Nat).core → "BTC/USD" ∉ m.symbol.getD [])) :=
  ⟨by decide,
    resubscribe_replays_desired_state
      [ChannelOp.subscribeOp (⟨none, 0⟩ : SubKey Nat) ["ETH/USD", "BTC/USD"]]
      ⟨none, 0⟩ ["BTC/USD"] "BTC/USD" (by decide)⟩

/-! ## C6: shared entries, symbol-set unions and entry deletion -/

theorem mem_addSym (l : List String) (s x : String) :
    x ∈ addSym l s ↔ x ∈ l ∨ x = s := by
  rw [addSym]
  split_ifs with h
  · constructor
    · exact Or.inl
    · rintro (hx | rfl)
      · exact hx
      · exact h
  · simp [List.mem_append]

theorem mem_addSyms (syms : List String) :
    ∀ (l : List String) (x : String), x ∈ addSyms l syms ↔ x ∈ l ∨ x ∈ syms := by
  induction syms with
  | nil => intro l x; simp [addSyms]
  | cons s rest ih =>
    intro l x
    rw [addSyms, List.foldl_cons]
    have := ih (addSym l s) x
    rw [addSyms] at this
    rw [this, mem_addSym]
    simp only [List.mem_cons]
    tauto

/-- C6 counterexample: a subscribe call with an empty symbol list creates
a registry entry whose symbol set is empty, and the entry persists — so it
is not the case that an entry is deleted exactly when its symbol set
becomes empty. -/
theorem empty_subscribe_entry_persists :
    applyChannelOps [ChannelOp.subscribeOp (⟨none, 0⟩ : SubKey Nat) []] =
      [(⟨none, 0⟩, [])] ∧
    ((⟨none, 0⟩ : SubKey Nat), ([] : List String)) ∈
      applyChannelOps [ChannelOp.subscribeOp (⟨none, 0⟩ : SubKey Nat) []] := by
  constructor
  · rfl
  · have h : applyChannelOps [ChannelOp.subscribeOp (⟨none, 0⟩ : SubKey Nat) []] =
        [(⟨none, 0⟩, [])] := rfl
    rw [h]
    exact List.mem_singleton.mpr rfl

/-- C6 as amended: two subscribe calls whose parameters serialize to the
same Subscription Key share a single registry entry whose symbol set is
the union of the calls' symbol lists; during an unsubscribe an entry is
deleted exactly when its symbol set becomes empty (and non-matching
entries are untouched); but a subscribe call never deletes an entry, so an
entry created with an empty symbol list persists with an empty set. -/
theorem registry_union_and_deletion {C : Type} [DecidableEq C] :
    (∀ (st : Registry C) (k : SubKey C) (s1 s2 : List String),
      st.any (fun e => e.1 = k) = false →
      ((subscribeStep (subscribeStep st k s1) k s2).filter (fun e => e.1 = k) =
        [(k, addSyms (addSyms [] s1) s2)]) ∧
      (∀ x : String, x ∈ addSyms (addSyms [] s1) s2 ↔ x ∈ s1 ∨ x ∈ s2)) ∧
    (∀ (st : Registry C) (k k' : SubKey C) (symbolArray set' : List String),
      (k', set') ∈ unsubscribeStep st k symbolArray ↔
        ∃ set, (k', set) ∈ st ∧
          ((k'.core = k.core ∧ set' = set.filter (fun s => ¬ s ∈ symbolArray) ∧
              set' ≠ []) ∨
           (k'.core ≠ k.core ∧ set' = set))) := by
  refine ⟨?_, fun st k k' sa s' => mem_unsubscribeStep st k k' sa s'⟩
  intro st k s1 s2 hfresh
  have hall : ∀ e ∈ st, ¬(e.1 = k) := by
    intro e he
    have := List.any_eq_false.mp hfresh e he
    simpa using this
  have hstep1 : subscribeStep st k s1 = st ++ [(k, addSyms [] s1)] := by
    rw [subscribeStep, if_neg]
    simp [hfresh]
  have hany2 : (st ++ [(k, addSyms [] s1)]).any (fun e => e.1 = k) = true := by
    rw [List.any_append]
    simp
  have hstep2 : subscribeStep (subscribeStep st k s1) k s2 =
      st.map (fun e => if e.1 = k then (e.1, addSyms e.2 s2) else e) ++
        [(k, addSyms (addSyms [] s1) s2)] := by
    rw [hstep1, subscribeStep, if_pos (by rw [hany2]), List.map_append]
    simp
  have hmapid : st.map (fun e => if e.1 = k then (e.1, addSyms e.2 s2) else e) = st := by
    rw [List.map_congr_left (g := id) ?_, List.map_id]
    intro e he
    simp [hall e he]
  refine ⟨?_, ?_⟩
  · rw [hstep2, hmapid, List.filter_append]
    have h1 : st.filter (fun e => e.1 = k) = [] := by
      rw [List.filter_eq_nil_iff]
      intro e he
      simpa using hall e he
    rw [h1]
    simp
  · intro x
    rw [mem_addSyms, mem_addSyms]
    simp

/-- Witness for C6's amended statement: from the empty registry, two
subscribe calls for key `⟨none, 0⟩` with symbol lists `["A"]` and
`["A", "B"]` leave a single entry holding `["A", "B"]`. -/
theorem registry_union_and_deletion_witness :
    (([] : Registry Nat).any (fun e => e.1 = ⟨none, 0⟩) = false) ∧
    (((subscribeStep (subscribeStep ([] : Registry Nat) ⟨none, 0⟩ ["A"])
        ⟨none, 0⟩ ["A", "B"]).filter (fun e => e.1 = ⟨none, 0⟩) =
      [(⟨none, 0⟩, addSyms (addSyms [] ["A"]) ["A", "B"])]) ∧
    (∀ x : String, x ∈ addSyms (addSyms [] ["A"]) ["A", "B"] ↔
      x ∈ ["A"] ∨ x ∈ ["A", "B"])) :=
  ⟨rfl, registry_union_and_deletion.1 [] ⟨none, 0⟩ ["A"] ["A", "B"] rfl⟩

/-! ## C8: caller contract violations
(src: orderbookSubscriptionManager.mjs, channelManager.mjs) -/

/-- `OrderbookSubscriptionManager.subscribe({symbol})`:
`#orderbookManagers` starts `undefined`; any second call throws
`'Can only subscribe once'` before touching state; a first call builds one
manager per distinct symbol (the object keys dedupe).  Result: the new
managers map and whether the call threw. -/
def fanSubscribe (managers : Option (List String)) (symbol : List String) :
    Option (List String) × Bool :=
  match managers with
  | some m => (some m, true)
  | none => (some (symbol.foldl addSym []), false)

/-- `OrderbookSubscriptionManager.unsubscribe({symbol})`: walk the symbol
list, destroying each symbol's engine in turn, and throw on the first
symbol with no entry (`Object.hasOwn` fails).  Engines destroyed before
the throw stay destroyed (`destroy` does not remove map entries, so the
managers map itself is unchanged).  Result: the list of symbols whose
engines were destroyed, and whether the call threw. -/
def fanUnsubscribe (managers : List String) : List String → List String × Bool
  | [] => ([], false)
  | s :: rest =>
    if s ∈ managers then
      let (destroyed, threw) := fanUnsubscribe managers rest
      (s :: destroyed, threw)
    else ([], true)

/-- The three shapes of `params.symbol` reaching
`ChannelManager.subscribe`: absent (destructuring default `[]`), an
array, or some non-array value. -/
inductive SymbolField where
  | absent
  | arr (l : List String)
  | notArr
deriving DecidableEq, Repr

/-- `const { token, symbol: symbolArray = [], ...} = params` followed by
`#validateSymbol(symbolArray)`: a non-array throws (`none`); an absent
field defaults to the empty array and passes validation. -/
def validateSymbolArray : SymbolField → Option (List String)
  | .absent => some []
  | .arr l => some l
  | .notArr => none

/-- `ChannelManager.subscribe` at the registry level: validation runs
before any mutation, so a thrown validation error leaves the registry
untouched. -/
def channelSubscribe [DecidableEq C] (st : Registry C) (k : SubKey C)
    (sf : SymbolField) : Registry C × Bool :=
  match validateSymbolArray sf with
  | none => (st, true)
  | some symbolArray => (subscribeStep st k symbolArray, false)

/-- C8 counterexample: unsubscribing `["A", "B"]` when only `"A"` is
subscribed throws (the error is reported), but engine `"A"` has already
been destroyed when the error is raised — the failing call did mutate
internal state, contrary to the claim. -/
theorem fanout_unsubscribe_partial_mutation :
    fanUnsubscribe ["A"] ["A", "B"] = (["A"], true) ∧
    (fanUnsubscribe ["A"] ["A", "B"]).1 ≠ [] := by
  constructor
  · rfl
  · intro h
    simp [fanUnsubscribe] at h

/-- C8 as amended: a second Fan-out subscribe call throws synchronously
with no state mutated; a Fan-out unsubscribe succeeds when every symbol is
subscribed, and otherwise throws after destroying the engines of the
longest subscribed prefix of the symbol list; a non-array symbol list
makes the Channel Registry subscribe throw before any mutation, while an
absent symbol list defaults to the empty array and does not error. -/
theorem caller_violation_handling {C : Type} [DecidableEq C] :
    (∀ (m : List String) (symbol : List String),
      fanSubscribe (some m) symbol = (some m, true)) ∧
    (∀ (managers : List String) (symbol : List String),
      ((∀ s ∈ symbol, s ∈ managers) →
        fanUnsubscribe managers symbol = (symbol, false)) ∧
      ((∃ s ∈ symbol, s ∉ managers) →
        fanUnsubscribe managers symbol =
          (symbol.takeWhile (fun s => s ∈ managers), true))) ∧
    (∀ (st : Registry C) (k : SubKey C),
      channelSubscribe st k .notArr = (st, true) ∧
      channelSubscribe st k .absent = (subscribeStep st k [], false)) := by
  refine ⟨fun m symbol => rfl, ?_, fun st k => ⟨rfl, rfl⟩⟩
  intro managers symbol
  induction symbol with
  | nil =>
    refine ⟨fun _ => rfl, ?_⟩
    rintro ⟨s, hs, -⟩
    exact absurd hs (List.not_mem_nil s)
  | cons x rest ih =>
    constructor
    · intro hall
      have hx : x ∈ managers := hall x (List.mem_cons_self x rest)
      rw [fanUnsubscribe, if_pos hx,
        ih.1 (fun s hsr => hall s (List.mem_cons_of_mem x hsr))]
    · rintro ⟨s, hs, hsnot⟩
      by_cases hx : x ∈ managers
      · have hsr : s ∈ rest := by
          rcases List.mem_cons.mp hs with rfl | hsr
          · exact absurd hx hsnot
          · exact hsr
        rw [fanUnsubscribe, if_pos hx, ih.2 ⟨s, hsr, hsnot⟩,
          List.takeWhile_cons_of_pos (by simpa using hx)]
      · rw [fanUnsubscribe, if_neg hx,
          List.takeWhile_cons_of_neg (by simpa using hx)]

/-- Witness for C8's amended statement at concrete inputs: a repeated
subscribe throws without touching its one-entry state; unsubscribing
`["A"]` from `{A}` succeeds; unsubscribing `["A", "B"]` from `{A}` throws
with only the `"A"` engine destroyed; the Channel Registry rejects a
non-array symbol list and accepts an absent one. -/
theorem caller_violation_handling_witness :
    (fanSubscribe (some ["A"]) ["B"] = (some ["A"], true)) ∧
    ((∀ s ∈ ["A"], s ∈ ["A"]) ∧
      fanUnsubscribe ["A"] ["A"] = (["A"], false)) ∧
    ((∃ s ∈ ["A", "B"], s ∉ ["A"]) ∧
      fanUnsubscribe ["A"] ["A", "B"] =
        (["A", "B"].takeWhile (fun s => s ∈ ["A"]), true)) ∧
    (channelSubscribe ([] : Registry Nat) ⟨none, 0⟩ .notArr = ([], true) ∧
      channelSubscribe ([] : Registry Nat) ⟨none, 0⟩ .absent =
        (subscribeStep ([] : Registry Nat) ⟨none, 0⟩ [], false)) :=
  ⟨(caller_violation_handling (C := Nat)).1 ["A"] ["B"],
   ⟨by decide, ((caller_violation_handling (C := Nat)).2.1 ["A"] ["A"]).1 (by decide)⟩,
   ⟨by decide, ((caller_violation_handling (C := Nat)).2.1 ["A"] ["A", "B"]).2 (by decide)⟩,
   (caller_violation_handling (C := Nat)).2.2 [] ⟨none, 0⟩⟩

end KrakenClient
